import Mathlib

/-!
Verification of the pytrends-cli repository (src/server.py, src/cli.py).

This file gives a shallow embedding of the request-gateway layer of the
repository: the sliding-window rate limiter and the `do_GET` admission
gate, the trending-searches fallback chains, the topic-exploration
(niche-topics) work-queue loop, the interest-over-time validation of the
CLI, and the YouTube transcript wrapper.  External providers (pytrends,
googlesearch, youtube-transcript-api, HTTP suggestion API) are modelled
as function parameters returning `Except`; time is an explicit `Int`
parameter standing for `time.time()`.
-/

set_option maxRecDepth 4000

deriving instance DecidableEq for Except

namespace PytrendsCli

/-! ### RateLimiter (src/server.py lines 18-33)

`RateLimiter.__init__` stores `max_calls`, `time_frame` and an empty
call list; `add_call` first drops entries with `call <= now - time_frame`
and then appends `now`; `is_allowed` compares the (unpruned) list length
with `max_calls`.  Timestamps are modelled as `Int` so that
`now - time_frame` can be negative, as the Python float arithmetic allows. -/

structure RateLimiter where
  max_calls : Nat
  time_frame : Int
  calls : List Int
deriving DecidableEq, Repr

def RateLimiter.add_call (rl : RateLimiter) (now : Int) : RateLimiter :=
  { rl with calls := (rl.calls.filter fun c => now - rl.time_frame < c) ++ [now] }

def RateLimiter.is_allowed (rl : RateLimiter) : Bool :=
  rl.calls.length < rl.max_calls

/-! ### do_GET admission gate (src/server.py lines 544-589)

`do_GET` first consults `rate_limiter.is_allowed()`; a denial answers 429
without recording.  Otherwise `rate_limiter.add_call()` records the call
and only then the path is inspected; `/health` and `/` answer the
liveness payload, every other path is dispatched to its handler. -/

inductive RouteOutcome where
  | rateLimited
  | health
  | routed (path : String)
deriving DecidableEq, Repr

def doGET (rl : RateLimiter) (path : String) (now : Int) : RouteOutcome × RateLimiter :=
  if rl.is_allowed = false then
    (RouteOutcome.rateLimited, rl)
  else
    let rl' := rl.add_call now
    if path = "/health" ∨ path = "/" then (RouteOutcome.health, rl')
    else (RouteOutcome.routed path, rl')

/-- HTTP status code produced by the pieces of `do_GET` modelled here:
429 for a rate-limited request, 200 for the health payload. -/
def RouteOutcome.status : RouteOutcome → Option Nat
  | RouteOutcome.rateLimited => some 429
  | RouteOutcome.health => some 200
  | RouteOutcome.routed _ => none

/-! ### Validation patterns (src/cli.py lines 14-44)

The four `re` patterns are modelled at character level.  `re.match` with
a trailing `$` accepts the whole string, or the whole string minus a
single trailing newline; `pyFullMatch` reproduces that.  `\d`, `[A-Z]`
and `[a-zA-Z0-9_-]` are modelled over their ASCII ranges. -/

def pyFullMatch (core : List Char → Bool) (s : String) : Bool :=
  core s.data ||
    (match s.data.getLast? with
     | some c => c = '\n' && core s.data.dropLast
     | none => false)

/-- Tail of the `today \d+-[ydm]` alternative after the digit run. -/
def afterDigits : List Char → Bool
  | ['-', u] => u = 'y' || u = 'd' || u = 'm'
  | _ => false

def todayTail (l : List Char) : Bool :=
  decide (l.takeWhile Char.isDigit ≠ []) && afterDigits (l.dropWhile Char.isDigit)

def matchToday : List Char → Bool
  | 't' :: 'o' :: 'd' :: 'a' :: 'y' :: ' ' :: rest => todayTail rest
  | _ => false

/-- Matcher for `^\d{4}-\d{2}-\d{2}$` (DATE_PATTERN core). -/
def matchDate : List Char → Bool
  | [a, b, c, d, '-', e, f, '-', g, h] =>
      a.isDigit && b.isDigit && c.isDigit && d.isDigit &&
      e.isDigit && f.isDigit && g.isDigit && h.isDigit
  | _ => false

def matchDateRange (l : List Char) : Bool :=
  match l.drop 10 with
  | ' ' :: rest => matchDate (l.take 10) && matchDate rest
  | _ => false

/-- Core of `TIMEFRAME_PATTERN`: `today \d+-[ydm]`, two ISO dates, or `all`. -/
def tfCore (l : List Char) : Bool :=
  matchToday l || matchDateRange l || l == ['a', 'l', 'l']

def TIMEFRAME_PATTERN_match (s : String) : Bool := pyFullMatch tfCore s

def DATE_PATTERN_match (s : String) : Bool := pyFullMatch matchDate s

/-- Core of `COUNTRY_CODE_PATTERN`: `[A-Z]{2}(-[A-Z]{2,3})?`. -/
def countryCore : List Char → Bool
  | [a, b] => a.isUpper && b.isUpper
  | [a, b, '-', c, d] => a.isUpper && b.isUpper && c.isUpper && d.isUpper
  | [a, b, '-', c, d, e] => a.isUpper && b.isUpper && c.isUpper && d.isUpper && e.isUpper
  | _ => false

def COUNTRY_CODE_PATTERN_match (s : String) : Bool := pyFullMatch countryCore s

/-- Core of `YOUTUBE_ID_PATTERN`: `[a-zA-Z0-9_-]{11}`. -/
def ytCore (l : List Char) : Bool :=
  l.length == 11 && l.all fun c => c.isAlphanum || c = '_' || c = '-'

def YOUTUBE_ID_PATTERN_match (s : String) : Bool := pyFullMatch ytCore s

/-- src/cli.py lines 22-27: empty geo is valid (global), otherwise the
country-code pattern decides. -/
def validate_geo (geo : String) : Bool :=
  if geo = "" then true else COUNTRY_CODE_PATTERN_match geo

/-- Python `str.split(sep)` on a single-character separator: splits at
every occurrence, keeping empty parts. -/
def pySplit (sep : Char) : List Char → List (List Char)
  | [] => [[]]
  | c :: t =>
      if c = sep then [] :: pySplit sep t
      else
        match pySplit sep t with
        | [] => [[c]]
        | p :: ps => (c :: p) :: ps

/-- src/cli.py lines 29-40.  When the pattern fails and the string holds a
space, `start_date, end_date = timeframe.split(' ')` unpacks exactly two
parts; with three or more parts the unpacking itself raises a
`ValueError`, modelled as the `.error` branch. -/
def validate_timeframe (timeframe : String) : Except String Bool :=
  if TIMEFRAME_PATTERN_match timeframe then Except.ok true
  else if timeframe.data.contains ' ' then
    match pySplit ' ' timeframe.data with
    | [s, e] => Except.ok (DATE_PATTERN_match (String.mk s) && DATE_PATTERN_match (String.mk e))
    | _ => Except.error "too many values to unpack (expected 2)"
  else Except.ok false

/-- src/cli.py lines 42-44. -/
def validate_youtube_id (video_id : String) : Bool :=
  YOUTUBE_ID_PATTERN_match video_id

/-! ### get_interest_over_time (src/cli.py lines 56-94)

The pytrends call chain (`TrendReq`, `build_payload`,
`interest_over_time`, `reset_index().to_dict`) is modelled as one
provider function from the validated inputs to either an error (an
exception, which the source does not catch) or a list of normalized
records; the empty list stands for an empty DataFrame. -/

def NRec : Type := List (String × String)
deriving DecidableEq, Repr

inductive IOTResult where
  | noData (keywords : List String)
  | res (keywords : List String) (timeframe geo : String) (rows : List NRec)
deriving DecidableEq, Repr

/-- The part of `get_interest_over_time` after all validation passed:
invoke the provider and shape its result (lines 73-94). -/
def iotFinish (pres : Except String (List NRec)) (keywords : List String)
    (timeframe geo : String) : Except String IOTResult :=
  match pres with
  | Except.error e => Except.error e
  | Except.ok rows =>
      if rows.isEmpty then Except.ok (IOTResult.noData keywords)
      else Except.ok (IOTResult.res keywords timeframe geo rows)

def IOTProvider : Type := List String → String → String → Except String (List NRec)

def get_interest_over_time (provider : IOTProvider)
    (keywords : List String) (timeframe geo : String) : Except String IOTResult :=
  if keywords.isEmpty then Except.error "At least one keyword is required"
  else if 5 < keywords.length then Except.error "Maximum 5 keywords are allowed"
  else
    match validate_timeframe timeframe with
    | Except.error e => Except.error e
    | Except.ok false =>
        Except.error "Invalid timeframe format. Use formats like 'today 3-m' or 'YYYY-MM-DD YYYY-MM-DD'"
    | Except.ok true =>
        if geo ≠ "" ∧ validate_geo geo = false then
          Except.error "Invalid geo format. Use ISO country codes like 'US' or 'US-NY'"
        else iotFinish (provider keywords timeframe geo) keywords timeframe geo

/-! ### get_trending_searches (src/server.py lines 60-141)

`pytrends.trending_searches` is modelled as a fetch function from the
country string to either a raised exception or a pandas value.  A pandas
value is a Series, a DataFrame (column names, first-column values, and
`to_dict('records')` rows, with `df.empty` iff the record list is empty),
or some non-pandas object rendered by `str`. -/

inductive PdFrame where
  | series (vals : List String)
  | frame (cols : List String) (firstCol : List String) (records : List NRec)
  | other (str : String)
deriving DecidableEq, Repr

/-- Python `str.lower()` over the ASCII range. -/
def pyLower (s : String) : String := String.mk (s.data.map Char.toLower)

/-- Python `str.upper()` over the ASCII range. -/
def pyUpper (s : String) : String := String.mk (s.data.map Char.toUpper)

/-- Python `s[:n]`. -/
def pyTake (n : Nat) (s : String) : String := String.mk (s.data.take n)

def mkQueryRec (v : String) : NRec := [("query", v)]

/-- Result shaping of the first `trending_searches` attempt
(src/server.py lines 93-118). -/
def shapeData1 : PdFrame → List NRec
  | PdFrame.series vals => vals.map mkQueryRec
  | PdFrame.frame cols firstCol records =>
      if cols.length = 1 ∧ records ≠ [] then firstCol.map mkQueryRec else records
  | PdFrame.other s => [mkQueryRec s]

/-- Result shaping of the retry attempt (src/server.py lines 124-136):
a Series becomes query records, everything else goes through
`df.to_dict('records')`, which raises on a non-DataFrame. -/
def shapeData2 : PdFrame → Except String (List NRec)
  | PdFrame.series vals => Except.ok (vals.map mkQueryRec)
  | PdFrame.frame _ _ records => Except.ok records
  | PdFrame.other s => Except.error ("object has no attribute to_dict: " ++ s)

/-- Known working country formats (src/server.py lines 69-83). -/
def knownCountries : List (String × String) :=
  [("united_states", "united_states"), ("us", "united_states"),
   ("uk", "united_kingdom"), ("united_kingdom", "united_kingdom"),
   ("japan", "japan"), ("canada", "canada"), ("germany", "germany"),
   ("india", "india"), ("australia", "australia"), ("brazil", "brazil"),
   ("france", "france"), ("mexico", "mexico"), ("italy", "italy")]

def retryCountries : List String := ["us", "uk", "jp", "ca", "de", "in", "au"]

structure TSResult where
  pn : String
  data : List NRec
deriving DecidableEq, Repr

def getTrendingSearches (fetch : String → Except String PdFrame) (pn : String) :
    Except String TSResult :=
  let country := pyUpper ((knownCountries.lookup (pyLower pn)).getD pn)
  match fetch country with
  | Except.ok df => Except.ok ⟨pn, shapeData1 df⟩
  | Except.error e =>
      if pyLower country ∈ retryCountries then
        match fetch (pyUpper country) with
        | Except.ok df2 =>
            match shapeData2 df2 with
            | Except.ok recs => Except.ok ⟨pn, recs⟩
            | Except.error _ =>
                Except.error ("Failed to get trending searches for " ++ pn ++ ": " ++ e)
        | Except.error _ =>
            Except.error ("Failed to get trending searches for " ++ pn ++ ": " ++ e)
      else Except.error ("Failed to get trending searches for " ++ pn ++ ": " ++ e)

inductive TSEnvelope where
  | body (r : TSResult)
  | err (message : String)
deriving DecidableEq, Repr

/-- Handler.handle_trending_searches (src/server.py lines 1390-1421): the
`pn` query parameter is lowercased, `get_trending_searches` is called,
a raised exception becomes a 500 `{status, message}` envelope. -/
def handleTrendingSearches (fetch : String → Except String PdFrame) (pnParam : String) :
    Nat × TSEnvelope :=
  match getTrendingSearches fetch (pyLower pnParam) with
  | Except.ok r => (200, TSEnvelope.body r)
  | Except.error e => (500, TSEnvelope.err e)

/-! ### get_realtime_trending_searches (src/server.py lines 143-233)

`pytrends.realtime_trending_searches` is modelled as a function of the
validated country, the category and the count, returning an exception,
`none` for a `None` DataFrame, or the record list (empty iff `df.empty`);
a record carries `title` and `entityNames`.  `pytrends.today_searches`
returns the iterated titles or an exception. -/

def supportedCountries : List String :=
  ["AR", "AU", "AT", "BE", "BR", "CA", "CL", "CO", "CZ", "DK",
   "EG", "FI", "FR", "DE", "GR", "HK", "HU", "IN", "ID", "IE",
   "IL", "IT", "JP", "KE", "MY", "MX", "NL", "NZ", "NG", "NO",
   "PL", "PT", "PH", "RO", "RU", "SA", "SG", "ZA", "KR", "ES",
   "SE", "CH", "TW", "TH", "TR", "UA", "GB", "US", "VN"]

def countryMap : List (String × String) :=
  [("united_states", "US"), ("india", "IN"), ("brazil", "BR"),
   ("mexico", "MX"), ("united_kingdom", "GB"), ("france", "FR"),
   ("germany", "DE"), ("italy", "IT"), ("spain", "ES"),
   ("canada", "CA"), ("australia", "AU"), ("japan", "JP")]

/-- src/server.py line 178: `pn = country_map.get(pn.lower(), pn[:2].upper())`. -/
def normalizePn (pn : String) : String :=
  (countryMap.lookup (pyLower pn)).getD (pyUpper (pyTake 2 pn))

structure RTItem where
  title : String
  entities : List String
deriving DecidableEq, Repr

inductive DataRec where
  | titleEntities (title : String) (entities : List String)
  | titleOnly (title : String)
  | noteRec (note : String)
deriving DecidableEq, Repr

structure RTResult where
  pn : String
  cat : String
  data : List DataRec
  note : Option String
  error : Option String
deriving DecidableEq, Repr

def getRealtimeTrendingSearches
    (realtimeFn : String → String → Nat → Except String (Option (List RTItem)))
    (todayFn : String → Except String (List String))
    (pn cat : String) (count : Nat) : Except String RTResult :=
  let pn' := normalizePn pn
  if pn' ∉ supportedCountries then
    Except.error ("Invalid country code: " ++ pn' ++ ". Supported countries: " ++
      String.intercalate ", " supportedCountries)
  else
    match realtimeFn pn' cat count with
    | Except.ok none => Except.ok ⟨pn', cat, [], none, none⟩
    | Except.ok (some []) => Except.ok ⟨pn', cat, [], none, none⟩
    | Except.ok (some (it :: its)) =>
        Except.ok ⟨pn', cat, (it :: its).map (fun i => DataRec.titleEntities i.title i.entities),
          none, none⟩
    | Except.error e =>
        match todayFn pn' with
        | Except.ok titles =>
            Except.ok ⟨pn', cat, titles.map DataRec.titleOnly,
              some "Used daily trends as fallback", none⟩
        | Except.error _ =>
            Except.ok ⟨pn', cat, [DataRec.noteRec "Could not retrieve trending searches"],
              none, some e⟩

inductive RTEnvelope where
  | body (r : RTResult)
  | err (message : String)
deriving DecidableEq, Repr

/-- Handler.handle_realtime_trending_searches (src/server.py lines
1423-1456): a successful return is a 200 envelope, a raised exception
(only the invalid-country ValueError can escape) is a 500 envelope. -/
def handleRealtimeTrendingSearches
    (realtimeFn : String → String → Nat → Except String (Option (List RTItem)))
    (todayFn : String → Except String (List String))
    (pn cat : String) (count : Nat) : Nat × RTEnvelope :=
  match getRealtimeTrendingSearches realtimeFn todayFn pn cat count with
  | Except.ok r => (200, RTEnvelope.body r)
  | Except.error e => (500, RTEnvelope.err e)

/-! ### Handler.handle_trends error envelope (src/server.py lines 886-965)

The legacy `/trends` handler wraps the whole pytrends interaction in one
try block; the provider interaction is modelled as an `Except` input.
On success it answers 200 with the data; on an exception it answers 500
with `{status: "error", message, sample: True, data: [{"date":
"2025-03-21", "value": 100}]}` (lines 959-964). -/

inductive TrendsEnvelope where
  | success (data : List (String × String))
  | errorEnv (status message : String) (sample : Bool) (data : List (String × String))
deriving DecidableEq, Repr

def handleTrends (providerResult : Except String (List (String × String))) :
    Nat × TrendsEnvelope :=
  match providerResult with
  | Except.ok d => (200, TrendsEnvelope.success d)
  | Except.error e =>
      (500, TrendsEnvelope.errorEnv "error" e true [("date", "2025-03-21"), ("value", "100")])

/-! ### get_keyword_suggestions and get_niche_topics (src/server.py lines 413-541)

The Google Suggest HTTP call is modelled as a function from the keyword
to either the raw suggestion list `data[1]` or a raised error;
`get_keyword_suggestions` truncates it with `data[1][:num_results]` and
wraps failures in the outer ValueError.

`get_niche_topics` drives a FIFO work queue of `(keyword, current_depth,
parent_list)` tuples.  The Python `parent_list` is a reference to the
`subtopics` list of one tree node; it is modelled as the index path of
that node from the root.  Appending each suggestion node and enqueueing
it one by one inside the for loop amounts to a single batch append at
the parent path plus enqueued paths `path ++ [base + i]` where `base` is
the length of the parent list when the batch starts.  The
`time.sleep(0.5)` pacing call has no observable effect here. -/

def getKeywordSuggestions (suggestFn : String → Except String (List String))
    (keyword : String) (numResults : Nat) : Except String (List String) :=
  match suggestFn keyword with
  | Except.ok l => Except.ok (l.take numResults)
  | Except.error e =>
      Except.error ("Failed to get suggestions for '" ++ keyword ++ "': " ++ e)

structure Topic where
  keyword : String
  subtopics : List Topic

/-- Node of a topic tree addressed by an index path from the root. -/
def nodeAt : Topic → List Nat → Option Topic
  | t, [] => some t
  | t, i :: rest =>
      match t.subtopics[i]? with
      | some c => nodeAt c rest
      | none => none

/-- Length of the `subtopics` list addressed by a path (0 if invalid). -/
def subtopicsLenAt : Topic → List Nat → Nat
  | t, [] => t.subtopics.length
  | t, i :: rest =>
      match t.subtopics[i]? with
      | some c => subtopicsLenAt c rest
      | none => 0

/-- Append children to the `subtopics` list addressed by a path
(no-op on an invalid path). -/
def appendAt : Topic → List Nat → List Topic → Topic
  | t, [], kids => ⟨t.keyword, t.subtopics ++ kids⟩
  | t, i :: rest, kids =>
      match t.subtopics[i]? with
      | some c => ⟨t.keyword, t.subtopics.set i (appendAt c rest kids)⟩
      | none => t

structure QItem where
  kw : String
  cd : Nat
  path : List Nat

/-- Queue entries for the suggestions appended at positions
`base`, `base+1`, … of the parent list at `p`. -/
def mkItems (p : List Nat) (cd1 base j : Nat) : List String → List QItem
  | [] => []
  | s :: ss => ⟨s, cd1, p ++ [base + j]⟩ :: mkItems p cd1 base (j + 1) ss

/-- The while loop of `get_niche_topics` (src/server.py lines 507-539),
with explicit fuel; `none` means the fuel ran out before the queue
drained. -/
def exploreLoop (suggestFn : String → Except String (List String)) (depth r : Nat) :
    Nat → Topic → List QItem → Option Topic
  | _, t, [] => some t
  | 0, _, _ :: _ => none
  | fuel + 1, t, item :: rest =>
      if depth ≤ item.cd then exploreLoop suggestFn depth r fuel t rest
      else
        match getKeywordSuggestions suggestFn item.kw r with
        | Except.error _ => exploreLoop suggestFn depth r fuel t rest
        | Except.ok sugg =>
            let base := subtopicsLenAt t item.path
            let t' := appendAt t item.path (sugg.map fun s => ⟨s, []⟩)
            let news := if item.cd < depth - 1 then mkItems item.path (item.cd + 1) base 0 sugg
                        else []
            exploreLoop suggestFn depth r fuel t' (rest ++ news)

/-- src/server.py lines 472-541.  The fuel `(r+1)^depth` dominates the
queue measure, so the fallback branch is never taken (see the
termination theorem below). -/
def get_niche_topics (suggestFn : String → Except String (List String))
    (seed : String) (depth r : Nat) : Topic :=
  match exploreLoop suggestFn depth r ((r + 1) ^ depth) ⟨seed, []⟩ [⟨seed, 0, []⟩] with
  | some t => t
  | none => ⟨seed, []⟩

/-- Subtree relation: `Subtree s t` holds when `s` is a node of the tree
`t` (including `t` itself). -/
inductive Subtree : Topic → Topic → Prop where
  | refl (t : Topic) : Subtree t t
  | child {s c t : Topic} : c ∈ t.subtopics → Subtree s c → Subtree s t

/-- Depth-indexed subtree relation: `SubtreeAt n s t` holds when `s` is a
node `n` edges below the root of `t`. -/
inductive SubtreeAt : Nat → Topic → Topic → Prop where
  | refl (t : Topic) : SubtreeAt 0 t t
  | child {n : Nat} {s c t : Topic} : c ∈ t.subtopics → SubtreeAt n s c →
      SubtreeAt (n + 1) s t

/-- Raw suggestion list the provider returns for a keyword
(empty when the call raises). -/
def providerList (suggestFn : String → Except String (List String)) (kw : String) :
    List String :=
  match suggestFn kw with
  | Except.ok l => l
  | Except.error _ => []

/-- Suggestion list actually appended below a keyword: the provider list
capped at `results_per_level`. -/
def suggCap (suggestFn : String → Except String (List String)) (r : Nat) (kw : String) :
    List String :=
  (providerList suggestFn kw).take r

/-- Fuel measure of the work queue: each entry at depth `cd` accounts for
the whole subtree it can still spawn. -/
def measureQ (depth r : Nat) (q : List QItem) : Nat :=
  (q.map fun it => (r + 1) ^ (depth - it.cd)).sum

/-- Deterministic suggestion stub returning two distinct suggestions. -/
def sfn0 : String → Except String (List String) := fun _ => Except.ok ["b", "c"]

/-- Deterministic suggestion stub returning the same suggestion for
every keyword. -/
def sfnX : String → Except String (List String) := fun _ => Except.ok ["x"]

/-! ### get_transcript (src/cli.py lines 468-572)

The youtube-transcript-api calls are modelled as three provider
functions: `list_transcripts`, the per-language `find_transcript` +
`fetch` pair (whose only caught error inside the language loop is
NoTranscriptFound), and the default `get_transcript`.  The transcript
list object and the fetched transcript payload are abstract. -/

def hasSub (pat : List Char) : List Char → Bool
  | [] => pat.isEmpty
  | c :: t => pat.isPrefixOf (c :: t) || hasSub pat t

/-- Python `pat in s` substring test. -/
def strContains (s pat : String) : Bool := hasSub pat.data s.data

/-- Python `str.split(sep)` for a non-empty separator string. -/
def pySplitStr (sep : List Char) : List Char → List (List Char)
  | [] => [[]]
  | c :: t =>
      if sep.isPrefixOf (c :: t) then
        [] :: pySplitStr sep (t.drop (sep.length - 1))
      else
        match pySplitStr sep t with
        | [] => [[c]]
        | p :: ps => (c :: p) :: ps
termination_by l => l.length
decreasing_by
  all_goals simp [List.length_drop]
  omega

/-- src/cli.py lines 468-476. -/
def extract_video_id (u : String) : String :=
  if strContains u "youtu.be" then
    String.mk ((pySplit '?' ((pySplit '/' u.data).getLastD [])).headD [])
  else if strContains u "youtube.com" then
    if strContains u "v=" then
      String.mk ((pySplit '&' ((pySplitStr "v=".data u.data).getD 1 [])).headD [])
    else u
  else u

def TranscriptList : Type := List String
deriving DecidableEq, Repr

def TData : Type := List String
deriving DecidableEq, Repr

inductive YTError where
  | transcriptsDisabled
  | noTranscriptFound
  | videoUnavailable
  | other (msg : String)
deriving DecidableEq, Repr

/-- Error messages of the four except branches
(src/cli.py lines 553-572). -/
def errMsg : YTError → String
  | YTError.transcriptsDisabled => "Transcripts are disabled for this video"
  | YTError.noTranscriptFound => "No transcript found for this video"
  | YTError.videoUnavailable => "The video is unavailable"
  | YTError.other m => m

inductive TResult where
  | transcript (video_id lang : String) (data : TData)
  | errorMap (video_id : String) (error : String)
deriving DecidableEq, Repr

def TResult.video_id : TResult → String
  | TResult.transcript v _ _ => v
  | TResult.errorMap v _ => v

/-- The for loop over requested languages (src/cli.py lines 525-535):
only NoTranscriptFound advances to the next language, any other provider
error propagates to the outer try. -/
def tryLangs (ff : TranscriptList → String → Except YTError TData)
    (tl : TranscriptList) : List String → Except YTError (Option (String × TData))
  | [] => Except.ok none
  | l :: ls =>
      match ff tl l with
      | Except.ok d => Except.ok (some (l, d))
      | Except.error YTError.noTranscriptFound => tryLangs ff tl ls
      | Except.error e => Except.error e

/-- Body of the outer try of `get_transcript`
(src/cli.py lines 513-551). -/
def transcriptBody (listT : String → Except YTError TranscriptList)
    (ff : TranscriptList → String → Except YTError TData)
    (gd : String → Except YTError TData)
    (vid : String) (langs : List String) : Except YTError TResult :=
  if langs.isEmpty then
    match gd vid with
    | Except.ok d => Except.ok (TResult.transcript vid "default" d)
    | Except.error e => Except.error e
  else
    match listT vid with
    | Except.error e => Except.error e
    | Except.ok tl =>
        match tryLangs ff tl langs with
        | Except.error e => Except.error e
        | Except.ok (some (l, d)) => Except.ok (TResult.transcript vid l d)
        | Except.ok none =>
            match gd vid with
            | Except.ok d => Except.ok (TResult.transcript vid "default" d)
            | Except.error e => Except.error e

/-- src/cli.py lines 478-572: extract and validate the id, then run the
provider interaction; every provider error is turned into an
`{video_id, error}` mapping, only the format ValueError is raised. -/
def get_transcript (listT : String → Except YTError TranscriptList)
    (ff : TranscriptList → String → Except YTError TData)
    (gd : String → Except YTError TData)
    (url : String) (langs : List String) : Except String TResult :=
  let vid := extract_video_id url
  if validate_youtube_id vid = false then
    Except.error ("Invalid YouTube video ID format: " ++ vid)
  else
    match transcriptBody listT ff gd vid langs with
    | Except.ok res => Except.ok res
    | Except.error e => Except.ok (TResult.errorMap vid (errMsg e))

/-- Provider stub used by the validation witness. -/
def iotProviderStub : IOTProvider := fun _ _ _ => Except.ok ([] : List NRec)

/-- Transcript provider stubs for the witness. -/
def wListT : String → Except YTError TranscriptList := fun _ => Except.ok ([] : List String)

def wFF : TranscriptList → String → Except YTError TData :=
  fun _ _ => Except.error YTError.noTranscriptFound

def wGD : String → Except YTError TData := fun _ => Except.ok (["line"] : List String)

/-! ## Theorems -/

/-- Claim C1 counterexample: a `GET /health` request does go through the
rate limiter.  With the process-wide configuration (100 calls per 60
seconds) and a full window, `/health` is answered 429, not 200; and an
admitted `/health` request mutates the rate window (the timestamp is
recorded). -/
theorem health_bypass_counterexample :
    (doGET ⟨100, 60, List.replicate 100 0⟩ "/health" 10).1 = RouteOutcome.rateLimited ∧
    (doGET ⟨100, 60, []⟩ "/health" 5).2 ≠ RateLimiter.mk 100 60 [] := by
  decide

/-- Claim C1 (amended): the health-check path is subject to the rate
limiter like every other request: when the limiter denies, the server
answers 429 and the window is unchanged; when it admits, the request
timestamp is recorded into the window and the liveness payload is
returned with HTTP 200. -/
theorem health_goes_through_rate_limiter (rl : RateLimiter) (path : String) (now : Int)
    (h : path = "/health" ∨ path = "/") :
    doGET rl path now =
      if rl.is_allowed then (RouteOutcome.health, rl.add_call now)
      else (RouteOutcome.rateLimited, rl) := by
  rcases h with h | h <;> subst h <;> cases hA : rl.is_allowed <;> simp [doGET, hA]

theorem health_goes_through_rate_limiter_witness :
    ("/health" = "/health" ∨ "/health" = "/") ∧
    doGET ⟨100, 60, []⟩ "/health" 5 =
      if (RateLimiter.mk 100 60 []).is_allowed
      then (RouteOutcome.health, (RateLimiter.mk 100 60 []).add_call 5)
      else (RouteOutcome.rateLimited, RateLimiter.mk 100 60 []) :=
  ⟨Or.inl rfl, health_goes_through_rate_limiter ⟨100, 60, []⟩ "/health" 5 (Or.inl rfl)⟩

/-- Claim C2: with `max_calls = 3, time_frame = 60`, three admitted calls
at times 0, 1, 2 are allowed and recorded, and a fourth check at time 3
is denied and not recorded — so far matching the claim.  But an
admission check at time 100, far past the window, is still denied with
the window unchanged: `is_allowed` compares the raw list length and
never prunes expired entries (pruning happens only inside `add_call`,
which is unreachable once the window is full), contradicting the claim
that a later check is allowed again. -/
theorem rate_limiter_never_recovers :
    doGET ⟨3, 60, []⟩ "/api" 0 = (RouteOutcome.routed "/api", ⟨3, 60, [0]⟩) ∧
    doGET ⟨3, 60, [0]⟩ "/api" 1 = (RouteOutcome.routed "/api", ⟨3, 60, [0, 1]⟩) ∧
    doGET ⟨3, 60, [0, 1]⟩ "/api" 2 = (RouteOutcome.routed "/api", ⟨3, 60, [0, 1, 2]⟩) ∧
    doGET ⟨3, 60, [0, 1, 2]⟩ "/api" 3 = (RouteOutcome.rateLimited, ⟨3, 60, [0, 1, 2]⟩) ∧
    doGET ⟨3, 60, [0, 1, 2]⟩ "/api" 100 = (RouteOutcome.rateLimited, ⟨3, 60, [0, 1, 2]⟩) ∧
    RateLimiter.is_allowed ⟨3, 60, [0, 1, 2]⟩ = false := by
  decide

/-- Claim C3 counterexample: a structurally-empty successful realtime
result is returned to the caller as `{pn, cat, data: []}` without
attempting the daily fallback — the output is the same whether the
untried `today_searches` strategy would succeed with data or fail. -/
theorem realtime_empty_no_fallback_counterexample :
    getRealtimeTrendingSearches (fun _ _ _ => Except.ok (some []))
        (fun _ => Except.ok ["fallback title"]) "US" "all" 300 =
      Except.ok ⟨"US", "all", [], none, none⟩ ∧
    getRealtimeTrendingSearches (fun _ _ _ => Except.ok (some []))
        (fun _ => Except.error "daily down") "US" "all" 300 =
      Except.ok ⟨"US", "all", [], none, none⟩ := by
  decide

/-- Claim C3 (amended): the daily/today fallback runs only when the
realtime call raises; a structurally-empty successful realtime result
(`None` or an empty DataFrame) is returned directly as empty data with
no note and the fallback is not consulted, while a raised realtime
failure with a successful daily call yields the daily titles tagged with
the fallback note. -/
theorem realtime_fallback_only_on_exception
    (todayFn : String → Except String (List String)) (pn cat : String) (count : Nat)
    (rtFn : String → String → Nat → Except String (Option (List RTItem)))
    (hmem : normalizePn pn ∈ supportedCountries) :
    ((rtFn (normalizePn pn) cat count = Except.ok none ∨
      rtFn (normalizePn pn) cat count = Except.ok (some [])) →
      getRealtimeTrendingSearches rtFn todayFn pn cat count =
        Except.ok ⟨normalizePn pn, cat, [], none, none⟩) ∧
    (∀ e titles, rtFn (normalizePn pn) cat count = Except.error e →
      todayFn (normalizePn pn) = Except.ok titles →
      getRealtimeTrendingSearches rtFn todayFn pn cat count =
        Except.ok ⟨normalizePn pn, cat, titles.map DataRec.titleOnly,
          some "Used daily trends as fallback", none⟩) := by
  constructor
  · rintro (h | h) <;> simp [getRealtimeTrendingSearches, hmem, h]
  · intro e titles h1 h2
    simp [getRealtimeTrendingSearches, hmem, h1, h2]

theorem realtime_fallback_only_on_exception_witness :
    normalizePn "US" ∈ supportedCountries ∧
    getRealtimeTrendingSearches (fun _ _ _ => Except.ok none)
        (fun _ => Except.ok []) "US" "all" 300 =
      Except.ok ⟨normalizePn "US", "all", [], none, none⟩ :=
  ⟨by decide,
   (realtime_fallback_only_on_exception (fun _ => Except.ok []) "US" "all" 300
     (fun _ _ _ => Except.ok none) (by decide)).1 (Or.inl rfl)⟩

/-- Claim C4 counterexample: when both the realtime and the daily
strategy fail, the returned outcome does NOT have an empty data
sequence: a placeholder record `{"note": "Could not retrieve trending
searches"}` is fabricated into `data`, and the top-level `note` field is
not set (an `error` field carries the realtime message instead). -/
theorem exhaustion_placeholder_counterexample :
    getRealtimeTrendingSearches (fun _ _ _ => Except.error "rt down")
        (fun _ => Except.error "daily down") "US" "all" 300 =
      Except.ok ⟨"US", "all", [DataRec.noteRec "Could not retrieve trending searches"],
        none, some "rt down"⟩ ∧
    [DataRec.noteRec "Could not retrieve trending searches"] ≠ ([] : List DataRec) := by
  decide

/-- Claim C4 (amended): when every strategy of the realtime chain fails,
the outcome carries a single fabricated placeholder record
`{"note": "Could not retrieve trending searches"}` in `data`, no
top-level `note`, and an `error` field holding the realtime failure
message; likewise the legacy `/trends` handler fabricates a sample
record `[{"date": "2025-03-21", "value": 100}]` into the `data` of its
500 error envelope. -/
theorem exhaustion_placeholder_spec :
    (∀ (pn cat : String) (count : Nat) (e1 e2 : String),
      normalizePn pn ∈ supportedCountries →
      getRealtimeTrendingSearches (fun _ _ _ => Except.error e1)
          (fun _ => Except.error e2) pn cat count =
        Except.ok ⟨normalizePn pn, cat,
          [DataRec.noteRec "Could not retrieve trending searches"], none, some e1⟩) ∧
    (∀ e : String, handleTrends (Except.error e) =
      (500, TrendsEnvelope.errorEnv "error" e true [("date", "2025-03-21"), ("value", "100")])) := by
  constructor
  · intro pn cat count e1 e2 hmem
    simp [getRealtimeTrendingSearches, hmem]
  · intro e
    rfl

theorem exhaustion_placeholder_spec_witness :
    normalizePn "US" ∈ supportedCountries ∧
    getRealtimeTrendingSearches (fun _ _ _ => Except.error "a")
        (fun _ => Except.error "b") "US" "all" 300 =
      Except.ok ⟨normalizePn "US", "all",
        [DataRec.noteRec "Could not retrieve trending searches"], none, some "a"⟩ :=
  ⟨by decide, exhaustion_placeholder_spec.1 "US" "all" 300 "a" "b" (by decide)⟩

/-- Claim C7 counterexample: on total strategy exhaustion the
`/trends/trending-searches` handler answers HTTP 500, not a 200 success
envelope: `get_trending_searches` raises a ValueError after the primary
(and, when applicable, retry) attempt fails, and the handler maps the
exception to a 500 error envelope. -/
theorem trending_exhaustion_500_counterexample :
    handleTrendingSearches (fun _ => Except.error "upstream down") "united_states" =
      (500, TSEnvelope.err
        "Failed to get trending searches for united_states: upstream down") := by
  decide

/-- Claim C7 (amended): within the trending-searches family only
`/trends/realtime-trending-searches` degrades to an HTTP 200 envelope
when every strategy fails; `/trends/trending-searches` surfaces total
exhaustion as an HTTP 500 error envelope. -/
theorem trending_family_exhaustion_statuses :
    (∀ (pn cat : String) (count : Nat) (e1 e2 : String),
      normalizePn pn ∈ supportedCountries →
      (handleRealtimeTrendingSearches (fun _ _ _ => Except.error e1)
        (fun _ => Except.error e2) pn cat count).1 = 200) ∧
    (∀ (pn e : String),
      (handleTrendingSearches (fun _ => Except.error e) pn).1 = 500) := by
  constructor
  · intro pn cat count e1 e2 hmem
    simp [handleRealtimeTrendingSearches, getRealtimeTrendingSearches, hmem]
  · intro pn e
    have hfail : getTrendingSearches (fun _ => Except.error e) (pyLower pn) =
        Except.error ("Failed to get trending searches for " ++ pyLower pn ++ ": " ++ e) := by
      simp only [getTrendingSearches]
      split <;> rfl
    simp [handleTrendingSearches, hfail]

theorem trending_family_exhaustion_statuses_witness :
    normalizePn "US" ∈ supportedCountries ∧
    (handleRealtimeTrendingSearches (fun _ _ _ => Except.error "x")
      (fun _ => Except.error "y") "US" "all" 300).1 = 200 :=
  ⟨by decide, trending_family_exhaustion_statuses.1 "US" "all" 300 "x" "y" (by decide)⟩

/-- Claim C8: `get_interest_over_time` rejects an empty keyword list,
a list with more than 5 keywords, an invalid timeframe and an invalid
geo with the corresponding validation error, in each case independently
of the provider (the provider is not consulted); when the keyword count
is in 1..5 and timeframe and geo are valid, the result is exactly the
provider invocation shaped by `iotFinish`. -/
theorem iot_validation_spec :
    (∀ (tf geo : String) (p q : IOTProvider),
      get_interest_over_time p [] tf geo = Except.error "At least one keyword is required" ∧
      get_interest_over_time p [] tf geo = get_interest_over_time q [] tf geo) ∧
    (∀ (kws : List String) (tf geo : String) (p q : IOTProvider), 5 < kws.length →
      get_interest_over_time p kws tf geo = Except.error "Maximum 5 keywords are allowed" ∧
      get_interest_over_time p kws tf geo = get_interest_over_time q kws tf geo) ∧
    (∀ (kws : List String) (tf geo : String) (p q : IOTProvider),
      kws ≠ [] → kws.length ≤ 5 → validate_timeframe tf = Except.ok false →
      get_interest_over_time p kws tf geo =
        Except.error "Invalid timeframe format. Use formats like 'today 3-m' or 'YYYY-MM-DD YYYY-MM-DD'" ∧
      get_interest_over_time p kws tf geo = get_interest_over_time q kws tf geo) ∧
    (∀ (kws : List String) (tf geo : String) (p q : IOTProvider) (er : String),
      kws ≠ [] → kws.length ≤ 5 → validate_timeframe tf = Except.error er →
      get_interest_over_time p kws tf geo = Except.error er ∧
      get_interest_over_time p kws tf geo = get_interest_over_time q kws tf geo) ∧
    (∀ (kws : List String) (tf geo : String) (p q : IOTProvider),
      kws ≠ [] → kws.length ≤ 5 → validate_timeframe tf = Except.ok true →
      geo ≠ "" → validate_geo geo = false →
      get_interest_over_time p kws tf geo =
        Except.error "Invalid geo format. Use ISO country codes like 'US' or 'US-NY'" ∧
      get_interest_over_time p kws tf geo = get_interest_over_time q kws tf geo) ∧
    (∀ (kws : List String) (tf geo : String) (p : IOTProvider),
      kws ≠ [] → kws.length ≤ 5 → validate_timeframe tf = Except.ok true →
      (geo = "" ∨ validate_geo geo = true) →
      get_interest_over_time p kws tf geo = iotFinish (p kws tf geo) kws tf geo) := by
  refine ⟨?_, ?_, ?_, ?_, ?_, ?_⟩
  · intro tf geo p q
    exact ⟨rfl, rfl⟩
  · intro kws tf geo p q h
    have hne : kws.isEmpty = false := by
      cases kws
      · simp at h
      · rfl
    constructor <;> simp [get_interest_over_time, hne, h]
  · intro kws tf geo p q hne hle hvt
    have h1 : kws.isEmpty = false := by
      cases kws
      · exact absurd rfl hne
      · rfl
    have h2 : ¬ 5 < kws.length := Nat.not_lt.mpr hle
    constructor <;> simp [get_interest_over_time, h1, h2, hvt]
  · intro kws tf geo p q er hne hle hvt
    have h1 : kws.isEmpty = false := by
      cases kws
      · exact absurd rfl hne
      · rfl
    have h2 : ¬ 5 < kws.length := Nat.not_lt.mpr hle
    constructor <;> simp [get_interest_over_time, h1, h2, hvt]
  · intro kws tf geo p q hne hle hvt hgeo hvg
    have h1 : kws.isEmpty = false := by
      cases kws
      · exact absurd rfl hne
      · rfl
    have h2 : ¬ 5 < kws.length := Nat.not_lt.mpr hle
    constructor <;> simp [get_interest_over_time, h1, h2, hvt, hgeo, hvg]
  · intro kws tf geo p hne hle hvt hgeo
    have h1 : kws.isEmpty = false := by
      cases kws
      · exact absurd rfl hne
      · rfl
    have h2 : ¬ 5 < kws.length := Nat.not_lt.mpr hle
    have hcond : ¬(geo ≠ "" ∧ validate_geo geo = false) := by
      rcases hgeo with h | h <;> simp [h]
    simp [get_interest_over_time, h1, h2, hvt, hcond]

theorem iot_validation_spec_witness :
    get_interest_over_time iotProviderStub [] "today 3-m" "" =
      Except.error "At least one keyword is required" ∧
    get_interest_over_time iotProviderStub ["a", "b", "c", "d", "e", "f"] "today 3-m" "" =
      Except.error "Maximum 5 keywords are allowed" ∧
    get_interest_over_time iotProviderStub ["a"] "invalid" "" =
      Except.error "Invalid timeframe format. Use formats like 'today 3-m' or 'YYYY-MM-DD YYYY-MM-DD'" ∧
    get_interest_over_time iotProviderStub ["a"] "a b c" "" =
      Except.error "too many values to unpack (expected 2)" ∧
    get_interest_over_time iotProviderStub ["a"] "today 3-m" "usa" =
      Except.error "Invalid geo format. Use ISO country codes like 'US' or 'US-NY'" ∧
    get_interest_over_time iotProviderStub ["a"] "today 3-m" "US" =
      iotFinish (iotProviderStub ["a"] "today 3-m" "US") ["a"] "today 3-m" "US" :=
  ⟨(iot_validation_spec.1 "today 3-m" "" iotProviderStub iotProviderStub).1,
   (iot_validation_spec.2.1 ["a", "b", "c", "d", "e", "f"] "today 3-m" ""
     iotProviderStub iotProviderStub (by decide)).1,
   (iot_validation_spec.2.2.1 ["a"] "invalid" "" iotProviderStub iotProviderStub
     (by decide) (by decide) (by decide)).1,
   (iot_validation_spec.2.2.2.1 ["a"] "a b c" "" iotProviderStub iotProviderStub
     "too many values to unpack (expected 2)" (by decide) (by decide) (by decide)).1,
   (iot_validation_spec.2.2.2.2.1 ["a"] "today 3-m" "usa" iotProviderStub iotProviderStub
     (by decide) (by decide) (by decide) (by decide) (by decide)).1,
   iot_validation_spec.2.2.2.2.2 ["a"] "today 3-m" "US" iotProviderStub
     (by decide) (by decide) (by decide) (Or.inr (by decide))⟩

/-- Every successful outcome of `transcriptBody` carries the validated
video id. -/
theorem transcriptBody_video_id
    {listT : String → Except YTError TranscriptList}
    {ff : TranscriptList → String → Except YTError TData}
    {gd : String → Except YTError TData} {vid : String} {langs : List String}
    {res : TResult}
    (h : transcriptBody listT ff gd vid langs = Except.ok res) :
    res.video_id = vid := by
  unfold transcriptBody at h
  repeat' split at h
  all_goals first
    | exact Except.noConfusion h
    | (injection h with h2; subst h2; rfl)

/-- Claim C10: for a syntactically valid extracted video id,
`get_transcript` always returns a mapping (never propagates a provider
exception), and that mapping carries the video id; only an invalid id
format makes the operation raise, with the format ValueError. -/
theorem get_transcript_total
    (listT : String → Except YTError TranscriptList)
    (ff : TranscriptList → String → Except YTError TData)
    (gd : String → Except YTError TData) (url : String) (langs : List String) :
    (validate_youtube_id (extract_video_id url) = true →
      ∃ res, get_transcript listT ff gd url langs = Except.ok res ∧
        res.video_id = extract_video_id url) ∧
    (validate_youtube_id (extract_video_id url) = false →
      get_transcript listT ff gd url langs =
        Except.error ("Invalid YouTube video ID format: " ++ extract_video_id url)) := by
  constructor
  · intro hv
    simp only [get_transcript, hv]
    cases hb : transcriptBody listT ff gd (extract_video_id url) langs with
    | ok res =>
        exact ⟨res, by simp, transcriptBody_video_id hb⟩
    | error e =>
        exact ⟨TResult.errorMap (extract_video_id url) (errMsg e), by simp, rfl⟩
  · intro hv
    simp [get_transcript, hv]

theorem get_transcript_total_witness :
    (∃ res, get_transcript wListT wFF wGD "abcdefghijk" [] = Except.ok res ∧
      res.video_id = extract_video_id "abcdefghijk") ∧
    get_transcript wListT wFF wGD "bad" [] =
      Except.error ("Invalid YouTube video ID format: " ++ extract_video_id "bad") :=
  ⟨(get_transcript_total wListT wFF wGD "abcdefghijk" []).1 (by decide),
   (get_transcript_total wListT wFF wGD "bad" []).2 (by decide)⟩

/-! ### Lemmas about the topic-tree helpers -/

theorem appendAt_keyword : ∀ (p : List Nat) (t : Topic) (kids : List Topic),
    (appendAt t p kids).keyword = t.keyword
  | [], _, _ => rfl
  | i :: _, ⟨_, subs⟩, _ => by
      unfold appendAt
      cases subs[i]? <;> rfl

theorem nodeAt_append : ∀ (p : List Nat) (t : Topic) (q : List Nat),
    nodeAt t (p ++ q) = (nodeAt t p).bind fun n => nodeAt n q
  | [], _, _ => rfl
  | i :: rest, ⟨kw, subs⟩, q => by
      cases hc : subs[i]? with
      | some c => simp [nodeAt, hc, nodeAt_append rest c q]
      | none => simp [nodeAt, hc]

theorem subtopicsLenAt_eq : ∀ (p : List Nat) (t n : Topic),
    nodeAt t p = some n → subtopicsLenAt t p = n.subtopics.length
  | [], t, n, h => by
      injection h with h
      rw [h]
      rfl
  | i :: rest, ⟨kw, subs⟩, n, h => by
      unfold nodeAt at h
      unfold subtopicsLenAt
      cases hc : subs[i]? with
      | some c =>
          rw [hc] at h
          exact subtopicsLenAt_eq rest c n h
      | none =>
          rw [hc] at h
          exact absurd h (by simp)

theorem subtree_of_leaf {s : Topic} {k : String} (h : Subtree s ⟨k, []⟩) :
    s = ⟨k, []⟩ := by
  cases h with
  | refl => rfl
  | child hmem _ => exact absurd hmem (List.not_mem_nil _)

theorem subtreeAt_of_leaf {n : Nat} {s : Topic} {k : String}
    (h : SubtreeAt n s ⟨k, []⟩) : n = 0 ∧ s = ⟨k, []⟩ := by
  cases h with
  | refl => exact ⟨rfl, rfl⟩
  | child hmem _ => exact absurd hmem (List.not_mem_nil _)

theorem map_keyword_set {subs : List Topic} {i : Nat} {c c' : Topic}
    (hc : subs[i]? = some c) (hk : c'.keyword = c.keyword) :
    (subs.set i c').map Topic.keyword = subs.map Topic.keyword := by
  apply List.ext_getElem?
  intro n
  rw [List.getElem?_map, List.getElem?_map]
  by_cases hni : n = i
  · subst hni
    rw [List.getElem?_set_eq_of_lt _ (List.getElem?_eq_some.mp hc).1, hc]
    simp [hk]
  · rw [List.getElem?_set_ne (show i ≠ n from Ne.symm hni)]

theorem nodeAt_appendAt_self : ∀ (p : List Nat) (t n : Topic) (kids : List Topic),
    nodeAt t p = some n →
    nodeAt (appendAt t p kids) p = some ⟨n.keyword, n.subtopics ++ kids⟩
  | [], t, n, kids, h => by
      injection h with h
      subst h
      rfl
  | i :: rest, ⟨kw, subs⟩, n, kids, h => by
      unfold nodeAt at h
      cases hc : subs[i]? with
      | none =>
          rw [hc] at h
          exact absurd h (by simp)
      | some c =>
          rw [hc] at h
          have hlt : i < subs.length := (List.getElem?_eq_some.mp hc).1
          unfold appendAt
          rw [hc]
          show nodeAt _ (i :: rest) = _
          unfold nodeAt
          rw [List.getElem?_set_eq_of_lt _ hlt]
          exact nodeAt_appendAt_self rest c n kids h

theorem nodeAt_appendAt_other :
    ∀ (p p' : List Nat) (t : Topic) (kw kw' : String) (kids : List Topic),
      nodeAt t p = some ⟨kw, []⟩ → nodeAt t p' = some ⟨kw', []⟩ → p' ≠ p →
      nodeAt (appendAt t p kids) p' = some ⟨kw', []⟩
  | [], p', t, kw, kw', kids, hp, hp', hne => by
      injection hp with hp
      subst hp
      cases p' with
      | nil => exact absurd rfl hne
      | cons j rest' =>
          unfold nodeAt at hp'
          simp at hp'
  | i :: rest, p', ⟨tkw, subs⟩, kw, kw', kids, hp, hp', hne => by
      unfold nodeAt at hp
      cases hc : subs[i]? with
      | none =>
          rw [hc] at hp
          exact absurd hp (by simp)
      | some c =>
          rw [hc] at hp
          have hlt : i < subs.length := (List.getElem?_eq_some.mp hc).1
          unfold appendAt
          rw [hc]
          cases p' with
          | nil =>
              injection hp' with hp'
              have hsubs : subs = [] := congrArg Topic.subtopics hp'
              rw [hsubs] at hc
              simp at hc
          | cons j rest' =>
              unfold nodeAt at hp' ⊢
              by_cases hji : j = i
              · subst hji
                rw [List.getElem?_set_eq_of_lt _ hlt]
                rw [hc] at hp'
                have hne' : rest' ≠ rest := by
                  intro hEq
                  exact hne (by rw [hEq])
                exact nodeAt_appendAt_other rest rest' c kw kw' kids hp hp' hne'
              · rw [List.getElem?_set_ne (show i ≠ j from Ne.symm hji)]
                exact hp'

theorem nodeAt_appendAt_new :
    ∀ (p : List Nat) (t : Topic) (kw : String) (kids : List Topic) (j : Nat) (k : Topic),
      nodeAt t p = some ⟨kw, []⟩ → kids[j]? = some k →
      nodeAt (appendAt t p kids) (p ++ [j]) = some k
  | [], t, kw, kids, j, k, hp, hk => by
      injection hp with hp
      subst hp
      show nodeAt ⟨kw, [] ++ kids⟩ [j] = some k
      unfold nodeAt
      simp only [List.nil_append]
      rw [hk]
      rfl
  | i :: rest, ⟨tkw, subs⟩, kw, kids, j, k, hp, hk => by
      unfold nodeAt at hp
      cases hc : subs[i]? with
      | none =>
          rw [hc] at hp
          exact absurd hp (by simp)
      | some c =>
          rw [hc] at hp
          have hlt : i < subs.length := (List.getElem?_eq_some.mp hc).1
          unfold appendAt
          rw [hc]
          show nodeAt _ (i :: (rest ++ [j])) = some k
          unfold nodeAt
          rw [List.getElem?_set_eq_of_lt _ hlt]
          exact nodeAt_appendAt_new rest c kw kids j k hp hk

/-! ### Lemmas about `mkItems` -/

theorem mem_mkItems (p : List Nat) (cd1 base : Nat) :
    ∀ (j : Nat) (ss : List String) (it : QItem), it ∈ mkItems p cd1 base j ss →
      ∃ i, ss[i]? = some it.kw ∧ it.path = p ++ [base + j + i] ∧ it.cd = cd1
  | j, [], it, h => absurd h (List.not_mem_nil _)
  | j, s :: ss, it, h => by
      rcases List.mem_cons.mp h with h1 | h2
      · refine ⟨0, ?_, ?_, ?_⟩ <;> simp [h1]
      · rcases mem_mkItems p cd1 base (j + 1) ss it h2 with ⟨i, h3, h4, h5⟩
        refine ⟨i + 1, by simpa using h3, ?_, h5⟩
        rw [h4]
        have : base + (j + 1) + i = base + j + (i + 1) := by omega
        rw [this]

theorem mkItems_pairwise (p : List Nat) (cd1 base : Nat) :
    ∀ (j : Nat) (ss : List String),
      (mkItems p cd1 base j ss).Pairwise fun a b => a.path ≠ b.path
  | j, [] => List.Pairwise.nil
  | j, s :: ss => by
      refine List.Pairwise.cons ?_ (mkItems_pairwise p cd1 base (j + 1) ss)
      intro b hb hEq
      rcases mem_mkItems p cd1 base (j + 1) ss b hb with ⟨i, _, h4, _⟩
      rw [h4] at hEq
      have := List.append_cancel_left hEq.symm
      simp at this
      omega

theorem mkItems_measure (depth r : Nat) (p : List Nat) (cd1 base : Nat) :
    ∀ (j : Nat) (ss : List String),
      measureQ depth r (mkItems p cd1 base j ss) = ss.length * (r + 1) ^ (depth - cd1)
  | j, [] => by simp [mkItems, measureQ]
  | j, s :: ss => by
      have ih := mkItems_measure depth r p cd1 base (j + 1) ss
      simp only [mkItems, measureQ, List.map_cons, List.sum_cons] at ih ⊢
      rw [ih, List.length_cons, Nat.succ_mul]
      omega

/-! ### Invariant preservation across one expansion step -/

/-- Appending the capped suggestions of `kw` below the (childless) node
at `p` preserves the children-are-a-prefix-of-the-provider-list
invariant over all subtrees. -/
theorem prefix_inv_append (fn : String → Except String (List String)) (r : Nat) :
    ∀ (p : List Nat) (t : Topic) (kw : String),
      (∀ s, Subtree s t → (s.subtopics.map Topic.keyword) <+: suggCap fn r s.keyword) →
      nodeAt t p = some ⟨kw, []⟩ →
      ∀ s, Subtree s (appendAt t p ((suggCap fn r kw).map fun s' => (⟨s', []⟩ : Topic))) →
        (s.subtopics.map Topic.keyword) <+: suggCap fn r s.keyword
  | [], t, kw, hInv, hp, s, hs => by
      injection hp with hp
      subst hp
      cases hs with
      | refl =>
          show (((suggCap fn r kw).map fun s' => (⟨s', []⟩ : Topic)).map
            Topic.keyword) <+: suggCap fn r kw
          rw [List.map_map]
          show (suggCap fn r kw).map (fun s' => s') <+: suggCap fn r kw
          rw [List.map_id']
      | child hmem hsub =>
          have hmem' : _ ∈ (suggCap fn r kw).map (fun s' => (⟨s', []⟩ : Topic)) := hmem
          rcases List.mem_map.mp hmem' with ⟨s', _, rfl⟩
          rw [subtree_of_leaf hsub]
          exact List.nil_prefix
  | i :: rest, ⟨tkw, subs⟩, kw, hInv, hp, s, hs => by
      unfold nodeAt at hp
      cases hc : subs[i]? with
      | none =>
          rw [hc] at hp
          exact absurd hp (by simp)
      | some c =>
          rw [hc] at hp
          unfold appendAt at hs
          rw [hc] at hs
          cases hs with
          | refl =>
              have hmk := map_keyword_set hc
                (appendAt_keyword rest c ((suggCap fn r kw).map fun s' => (⟨s', []⟩ : Topic)))
              have hroot := hInv ⟨tkw, subs⟩ (Subtree.refl _)
              simpa [hmk] using hroot
          | child hmem hsub =>
              rcases List.mem_or_eq_of_mem_set hmem with hold | hnew
              · exact hInv s (Subtree.child hold hsub)
              · subst hnew
                exact prefix_inv_append fn r rest c kw
                  (fun s' hs' => hInv s' (Subtree.child (List.getElem?_mem hc) hs'))
                  hp s hsub

/-- Appending leaf children below a node at path `p` keeps every node
level within `cap`, provided the new level `p.length + 1` fits. -/
theorem subtreeAt_append_le :
    ∀ (p : List Nat) (t : Topic) (cap : Nat) (kids : List Topic),
      (∀ n s, SubtreeAt n s t → n ≤ cap) →
      (∀ k ∈ kids, k.subtopics = []) →
      p.length + 1 ≤ cap →
      ∀ n s, SubtreeAt n s (appendAt t p kids) → n ≤ cap
  | [], t, cap, kids, hlev, hleaf, hlen, n, s, hs => by
      cases hs with
      | refl => exact Nat.zero_le cap
      | child hmem hsub =>
          rename_i m c
          rcases List.mem_append.mp hmem with hold | hkid
          · exact hlev _ s (SubtreeAt.child hold hsub)
          · have hk := hleaf _ hkid
            have hm : m = 0 := by
              cases hsub with
              | refl => rfl
              | child hmem2 _ =>
                  rw [hk] at hmem2
                  exact absurd hmem2 (List.not_mem_nil _)
            omega
  | i :: rest, ⟨tkw, subs⟩, cap, kids, hlev, hleaf, hlen, n, s, hs => by
      unfold appendAt at hs
      cases hc : subs[i]? with
      | none =>
          rw [hc] at hs
          exact hlev n s hs
      | some c =>
          rw [hc] at hs
          cases hs with
          | refl => exact Nat.zero_le cap
          | child hmem hsub =>
              rename_i m c''
              rcases List.mem_or_eq_of_mem_set hmem with hold | hnew
              · exact hlev _ s (SubtreeAt.child hold hsub)
              · subst hnew
                have hcs : ∀ n' s', SubtreeAt n' s' c → n' ≤ cap - 1 := by
                  intro n' s' h'
                  have := hlev (n' + 1) s' (SubtreeAt.child (List.getElem?_mem hc) h')
                  omega
                have hm := subtreeAt_append_le rest c (cap - 1) kids hcs hleaf
                  (by simp at hlen ⊢; omega) m s hsub
                simp at hlen
                omega

/-! ### Loop lemmas -/

theorem getKeywordSuggestions_ok {fn : String → Except String (List String)}
    {kw : String} {r : Nat} {sugg : List String}
    (h : getKeywordSuggestions fn kw r = Except.ok sugg) :
    sugg = suggCap fn r kw ∧ sugg.length ≤ r := by
  unfold getKeywordSuggestions at h
  cases hf : fn kw with
  | ok l =>
      rw [hf] at h
      injection h with h
      subst h
      constructor
      · unfold suggCap providerList
        rw [hf]
      · rw [List.length_take]
        exact Nat.min_le_left _ _
  | error e =>
      rw [hf] at h
      exact absurd h (by simp)

theorem measureQ_append (depth r : Nat) (q1 q2 : List QItem) :
    measureQ depth r (q1 ++ q2) = measureQ depth r q1 + measureQ depth r q2 := by
  simp [measureQ]

theorem measureQ_cons (depth r : Nat) (it : QItem) (rest : List QItem) :
    measureQ depth r (it :: rest) =
      (r + 1) ^ (depth - it.cd) + measureQ depth r rest := by
  simp [measureQ]

theorem exploreLoop_terminates (fn : String → Except String (List String)) (depth r : Nat) :
    ∀ (fuel : Nat) (t : Topic) (q : List QItem),
      measureQ depth r q ≤ fuel →
      ∃ res, exploreLoop fn depth r fuel t q = some res := by
  intro fuel
  induction fuel with
  | zero =>
      intro t q h
      cases q with
      | nil => exact ⟨t, rfl⟩
      | cons it rest =>
          exfalso
          have h1 : 1 ≤ (r + 1) ^ (depth - it.cd) := Nat.one_le_pow _ _ (by omega)
          rw [measureQ_cons] at h
          omega
  | succ fuel ih =>
      intro t q h
      cases q with
      | nil => exact ⟨t, rfl⟩
      | cons it rest =>
          rw [measureQ_cons] at h
          have h1 : 1 ≤ (r + 1) ^ (depth - it.cd) := Nat.one_le_pow _ _ (by omega)
          unfold exploreLoop
          by_cases hd : depth ≤ it.cd
          · rw [if_pos hd]
            exact ih t rest (by omega)
          · rw [if_neg hd]
            cases hks : getKeywordSuggestions fn it.kw r with
            | error e => exact ih t rest (by omega)
            | ok sugg =>
                rcases getKeywordSuggestions_ok hks with ⟨_, hlen⟩
                refine ih _ _ ?_
                show measureQ depth r (rest ++
                  (if it.cd < depth - 1 then
                    mkItems it.path (it.cd + 1) (subtopicsLenAt t it.path) 0 sugg
                   else [])) ≤ fuel
                rw [measureQ_append]
                by_cases hcd : it.cd < depth - 1
                · rw [if_pos hcd, mkItems_measure]
                  have hdn : depth - it.cd = (depth - (it.cd + 1)) + 1 := by omega
                  have hw : (r + 1) ^ (depth - it.cd) =
                      r * (r + 1) ^ (depth - (it.cd + 1)) +
                      (r + 1) ^ (depth - (it.cd + 1)) := by
                    rw [hdn, pow_succ']
                    ring
                  have hX : 1 ≤ (r + 1) ^ (depth - (it.cd + 1)) :=
                    Nat.one_le_pow _ _ (by omega)
                  have hmul : sugg.length * (r + 1) ^ (depth - (it.cd + 1)) ≤
                      r * (r + 1) ^ (depth - (it.cd + 1)) :=
                    Nat.mul_le_mul_right _ hlen
                  rw [hw] at h
                  generalize hA : measureQ depth r rest = A at h ⊢
                  generalize hX2 : (r + 1) ^ (depth - (it.cd + 1)) = X at h hX hmul ⊢
                  generalize hB : r * X = B at h hmul
                  generalize hC : sugg.length * X = C at hmul ⊢
                  omega
                · rw [if_neg hcd]
                  have : measureQ depth r ([] : List QItem) = 0 := by simp [measureQ]
                  omega

/-- Soundness of the work-queue loop: starting from a tree and a queue
that satisfy the prefix, level and pathing invariants, any tree returned
by the loop keeps the root keyword, the children-prefix invariant and
the level bound. -/
theorem exploreLoop_sound (fn : String → Except String (List String)) (depth r : Nat) :
    ∀ (fuel : Nat) (t : Topic) (q : List QItem) (res : Topic),
      exploreLoop fn depth r fuel t q = some res →
      (∀ s, Subtree s t → (s.subtopics.map Topic.keyword) <+: suggCap fn r s.keyword) →
      (∀ n s, SubtreeAt n s t → n ≤ depth) →
      (∀ it ∈ q, nodeAt t it.path = some ⟨it.kw, []⟩ ∧ it.path.length = it.cd) →
      q.Pairwise (fun a b => a.path ≠ b.path) →
      res.keyword = t.keyword ∧
      (∀ s, Subtree s res → (s.subtopics.map Topic.keyword) <+: suggCap fn r s.keyword) ∧
      (∀ n s, SubtreeAt n s res → n ≤ depth) := by
  intro fuel
  induction fuel with
  | zero =>
      intro t q res hrun hInv hLev hQ _
      cases q with
      | nil =>
          have hrun' : some t = some res := hrun
          injection hrun' with h
          subst h
          exact ⟨rfl, hInv, hLev⟩
      | cons it rest =>
          simp [exploreLoop] at hrun
  | succ fuel ih =>
      intro t q res hrun hInv hLev hQ hPw
      cases q with
      | nil =>
          have hrun' : some t = some res := hrun
          injection hrun' with h
          subst h
          exact ⟨rfl, hInv, hLev⟩
      | cons it rest =>
          obtain ⟨hnode, hplen⟩ := hQ it (List.mem_cons_self _ _)
          unfold exploreLoop at hrun
          by_cases hd : depth ≤ it.cd
          · rw [if_pos hd] at hrun
            exact ih t rest res hrun hInv hLev
              (fun b hb => hQ b (List.mem_cons_of_mem _ hb)) hPw.of_cons
          · rw [if_neg hd] at hrun
            cases hks : getKeywordSuggestions fn it.kw r with
            | error e =>
                rw [hks] at hrun
                exact ih t rest res hrun hInv hLev
                  (fun b hb => hQ b (List.mem_cons_of_mem _ hb)) hPw.of_cons
            | ok sugg =>
                rw [hks] at hrun
                rcases getKeywordSuggestions_ok hks with ⟨hsugg, _⟩
                have hbase : subtopicsLenAt t it.path = 0 := by
                  rw [subtopicsLenAt_eq it.path t ⟨it.kw, []⟩ hnode]
                  rfl
                replace hrun : exploreLoop fn depth r fuel
                    (appendAt t it.path (sugg.map fun s' => (⟨s', []⟩ : Topic)))
                    (rest ++ (if it.cd < depth - 1 then
                      mkItems it.path (it.cd + 1) (subtopicsLenAt t it.path) 0 sugg
                     else []))
                    = some res := hrun
                rw [hbase] at hrun
                have hInv' : ∀ s,
                    Subtree s (appendAt t it.path (sugg.map fun s' => (⟨s', []⟩ : Topic))) →
                    (s.subtopics.map Topic.keyword) <+: suggCap fn r s.keyword := by
                  rw [hsugg]
                  exact prefix_inv_append fn r it.path t it.kw hInv hnode
                have hlev1 : it.path.length + 1 ≤ depth := by omega
                have hLev' : ∀ n s,
                    SubtreeAt n s (appendAt t it.path (sugg.map fun s' => (⟨s', []⟩ : Topic))) →
                    n ≤ depth := by
                  refine subtreeAt_append_le it.path t depth _ hLev ?_ hlev1
                  intro k hk
                  rcases List.mem_map.mp hk with ⟨s', _, rfl⟩
                  rfl
                have hQrest : ∀ b ∈ rest,
                    nodeAt (appendAt t it.path (sugg.map fun s' => (⟨s', []⟩ : Topic))) b.path =
                      some ⟨b.kw, []⟩ ∧ b.path.length = b.cd := by
                  intro b hb
                  obtain ⟨hbn, hbl⟩ := hQ b (List.mem_cons_of_mem _ hb)
                  refine ⟨?_, hbl⟩
                  have hbp : b.path ≠ it.path := by
                    have hne := (List.pairwise_cons.mp hPw).1 b hb
                    exact fun hEq => hne hEq.symm
                  exact nodeAt_appendAt_other it.path b.path t it.kw b.kw _ hnode hbn hbp
                have hQnews : ∀ b ∈ (if it.cd < depth - 1 then
                      mkItems it.path (it.cd + 1) 0 0 sugg else []),
                    nodeAt (appendAt t it.path (sugg.map fun s' => (⟨s', []⟩ : Topic))) b.path =
                      some ⟨b.kw, []⟩ ∧ b.path.length = b.cd := by
                  intro b hb
                  by_cases hcd : it.cd < depth - 1
                  · rw [if_pos hcd] at hb
                    rcases mem_mkItems it.path (it.cd + 1) 0 0 sugg b hb with ⟨i, hkwi, hpathi, hcdi⟩
                    have hzero : (0 : Nat) + 0 + i = i := by omega
                    rw [hzero] at hpathi
                    have hki : (sugg.map fun s' => (⟨s', []⟩ : Topic))[i]? =
                        some ⟨b.kw, []⟩ := by
                      rw [List.getElem?_map, hkwi]
                      rfl
                    constructor
                    · rw [hpathi]
                      exact nodeAt_appendAt_new it.path t it.kw _ i ⟨b.kw, []⟩ hnode hki
                    · rw [hpathi, hcdi]
                      simp [hplen]
                  · rw [if_neg hcd] at hb
                    exact absurd hb (List.not_mem_nil _)
                have hPw' : (rest ++ (if it.cd < depth - 1 then
                    mkItems it.path (it.cd + 1) 0 0 sugg else [])).Pairwise
                      (fun a b => a.path ≠ b.path) := by
                  rw [List.pairwise_append]
                  refine ⟨hPw.of_cons, ?_, ?_⟩
                  · by_cases hcd : it.cd < depth - 1
                    · rw [if_pos hcd]
                      exact mkItems_pairwise it.path (it.cd + 1) 0 0 sugg
                    · rw [if_neg hcd]
                      exact List.Pairwise.nil
                  · intro a ha b hb
                    by_cases hcd : it.cd < depth - 1
                    · rw [if_pos hcd] at hb
                      rcases mem_mkItems it.path (it.cd + 1) 0 0 sugg b hb with ⟨i, _, hpathi, _⟩
                      obtain ⟨han, _⟩ := hQ a (List.mem_cons_of_mem _ ha)
                      intro hEq
                      have hnone : nodeAt t (it.path ++ [0 + 0 + i]) = none := by
                        rw [nodeAt_append, hnode]
                        show nodeAt ⟨it.kw, []⟩ [0 + 0 + i] = none
                        unfold nodeAt
                        simp
                      rw [hEq, hpathi] at han
                      rw [han] at hnone
                      cases hnone
                    · rw [if_neg hcd] at hb
                      exact absurd hb (List.not_mem_nil _)
                have hres := ih _ _ res hrun hInv' hLev'
                  (by
                    intro b hb
                    rcases List.mem_append.mp hb with h | h
                    exacts [hQrest b h, hQnews b h])
                  hPw'
                refine ⟨?_, hres.2.1, hres.2.2⟩
                rw [hres.1, appendAt_keyword]

/-- The tree returned by `get_niche_topics` keeps the seed keyword at
the root, the children-prefix invariant and the level bound. -/
theorem get_niche_topics_props (fn : String → Except String (List String))
    (seed : String) (depth r : Nat) :
    (get_niche_topics fn seed depth r).keyword = seed ∧
    (∀ s, Subtree s (get_niche_topics fn seed depth r) →
      (s.subtopics.map Topic.keyword) <+: suggCap fn r s.keyword) ∧
    (∀ n s, SubtreeAt n s (get_niche_topics fn seed depth r) → n ≤ depth) := by
  have hInv0 : ∀ s, Subtree s (⟨seed, []⟩ : Topic) →
      (s.subtopics.map Topic.keyword) <+: suggCap fn r s.keyword := by
    intro s hs
    rw [subtree_of_leaf hs]
    exact List.nil_prefix
  have hLev0 : ∀ n s, SubtreeAt n s (⟨seed, []⟩ : Topic) → n ≤ depth := by
    intro n s hs
    have := (subtreeAt_of_leaf hs).1
    omega
  unfold get_niche_topics
  cases hl : exploreLoop fn depth r ((r + 1) ^ depth) ⟨seed, []⟩ [⟨seed, 0, []⟩] with
  | none => exact ⟨rfl, hInv0, hLev0⟩
  | some t =>
      have hq0 : ∀ it ∈ [(⟨seed, 0, []⟩ : QItem)],
          nodeAt (⟨seed, []⟩ : Topic) it.path = some ⟨it.kw, []⟩ ∧
          it.path.length = it.cd := by
        intro it hit
        rcases List.mem_singleton.mp hit with rfl
        exact ⟨rfl, rfl⟩
      have hres := exploreLoop_sound fn depth r _ _ _ _ hl hInv0 hLev0 hq0
        (List.pairwise_singleton _ _)
      exact ⟨hres.1, hres.2.1, hres.2.2⟩

/-- Claim C9: for every seed keyword, depth, results_per_level and
suggestion function, the work queue of `get_niche_topics` drains within
`(r+1)^depth` iterations: running the loop with that much fuel always
returns a tree, never the fuel-exhausted marker. -/
theorem niche_topics_terminates (fn : String → Except String (List String))
    (seed : String) (depth r : Nat) :
    ∃ t, exploreLoop fn depth r ((r + 1) ^ depth) ⟨seed, []⟩ [⟨seed, 0, []⟩] = some t :=
  exploreLoop_terminates fn depth r _ _ _ (by simp [measureQ])

/-- Claim C6: the tree returned by the topic exploration has root
keyword equal to the seed, no node more than `depth` edges below the
root, at most `results_per_level` children per node, and each node's
children keywords an initial segment (in provider order) of the
suggestion list returned for that node's keyword. -/
theorem niche_topics_shape (fn : String → Except String (List String))
    (seed : String) (depth r : Nat) :
    (get_niche_topics fn seed depth r).keyword = seed ∧
    (∀ n s, SubtreeAt n s (get_niche_topics fn seed depth r) → n ≤ depth) ∧
    (∀ s, Subtree s (get_niche_topics fn seed depth r) → s.subtopics.length ≤ r) ∧
    (∀ s, Subtree s (get_niche_topics fn seed depth r) →
      (s.subtopics.map Topic.keyword) <+: providerList fn s.keyword) := by
  obtain ⟨h1, h2, h3⟩ := get_niche_topics_props fn seed depth r
  refine ⟨h1, h3, ?_, ?_⟩
  · intro s hs
    have hle := (h2 s hs).length_le
    rw [List.length_map] at hle
    have hc : (suggCap fn r s.keyword).length ≤ r := by
      rw [suggCap, List.length_take]
      exact Nat.min_le_left _ _
    omega
  · intro s hs
    exact (h2 s hs).trans ⟨_, List.take_append_drop r (providerList fn s.keyword)⟩

theorem niche_topics_shape_witness :
    (get_niche_topics sfn0 "a" 1 2).keyword = "a" ∧
    (0 : Nat) ≤ 1 ∧
    (get_niche_topics sfn0 "a" 1 2).subtopics.length ≤ 2 ∧
    ((get_niche_topics sfn0 "a" 1 2).subtopics.map Topic.keyword) <+:
      providerList sfn0 (get_niche_topics sfn0 "a" 1 2).keyword :=
  ⟨(niche_topics_shape sfn0 "a" 1 2).1,
   (niche_topics_shape sfn0 "a" 1 2).2.1 0 _ (SubtreeAt.refl _),
   (niche_topics_shape sfn0 "a" 1 2).2.2.1 _ (Subtree.refl _),
   (niche_topics_shape sfn0 "a" 1 2).2.2.2 _ (Subtree.refl _)⟩

/-- Claim C5 counterexample: with the suggestion function returning
`["x"]` for every keyword, seed `"a"`, depth 2, results_per_level 1, the
returned tree holds the keyword `"x"` at two distinct nodes (levels 1
and 2): there is no visited set and no global deduplication. -/
theorem niche_topics_dedup_counterexample :
    get_niche_topics sfnX "a" 2 1 = ⟨"a", [⟨"x", [⟨"x", []⟩]⟩]⟩ ∧
    SubtreeAt 1 ⟨"x", [⟨"x", []⟩]⟩ (get_niche_topics sfnX "a" 2 1) ∧
    SubtreeAt 2 ⟨"x", []⟩ (get_niche_topics sfnX "a" 2 1) ∧
    Topic.keyword ⟨"x", [⟨"x", []⟩]⟩ = Topic.keyword ⟨"x", []⟩ ∧
    (⟨"x", [⟨"x", []⟩]⟩ : Topic) ≠ ⟨"x", []⟩ := by
  have h : get_niche_topics sfnX "a" 2 1 = ⟨"a", [⟨"x", [⟨"x", []⟩]⟩]⟩ := rfl
  refine ⟨h, ?_, ?_, rfl, by simp⟩
  · rw [h]
    exact SubtreeAt.child (List.mem_cons_self _ _) (SubtreeAt.refl _)
  · rw [h]
    exact SubtreeAt.child (List.mem_cons_self _ _)
      (SubtreeAt.child (List.mem_cons_self _ _) (SubtreeAt.refl _))

/-- Claim C5 (amended): `get_niche_topics` performs no global
deduplication, so a keyword can recur across branches; what does hold is
the local form: each node's children follow the provider's list in
order, hence when every suggestion list the provider returns is
duplicate-free, no keyword appears twice among any single node's
children. -/
theorem niche_topics_children_nodup (fn : String → Except String (List String))
    (seed : String) (depth r : Nat)
    (hfn : ∀ kw l, fn kw = Except.ok l → l.Nodup) :
    ∀ s, Subtree s (get_niche_topics fn seed depth r) →
      (s.subtopics.map Topic.keyword).Nodup := by
  intro s hs
  have hpre := (get_niche_topics_props fn seed depth r).2.1 s hs
  have hnd : (suggCap fn r s.keyword).Nodup := by
    unfold suggCap providerList
    cases hf : fn s.keyword with
    | ok l => exact (hfn _ _ hf).sublist (List.take_sublist _ _)
    | error e => simp
  exact hnd.sublist hpre.sublist

theorem niche_topics_children_nodup_witness :
    ((get_niche_topics sfn0 "a" 1 2).subtopics.map Topic.keyword).Nodup :=
  niche_topics_children_nodup sfn0 "a" 1 2
    (by
      intro kw l h
      injection h with h
      subst h
      decide)
    _ (Subtree.refl _)

end PytrendsCli
